import Mathlib

/-!
Verification of the Federated Averaging core
(`tensorflow_federated/python/learning/federated_averaging.py`).

The embedding models tensors as flat lists of values; a value is either a
finite rational or a non-finite marker (NaN / infinity).  TensorFlow
variables are modelled by explicit state passing: the client's
`num_examples` variable and the model's weight variables are threaded
through the computation, and the server's freshly constructed variables
are local values of `server_update_model`.
-/

namespace FedAvg

/-- A scalar tensor element: a finite rational number, or a non-finite
value (NaN or an infinity).  Arithmetic propagates non-finiteness. -/
inductive FVal where
  | fin : ℚ → FVal
  | nonfin : FVal
deriving DecidableEq

def FVal.isFinite : FVal → Bool
  | .fin _ => true
  | .nonfin => false

def FVal.add : FVal → FVal → FVal
  | .fin a, .fin b => .fin (a + b)
  | _, _ => .nonfin

def FVal.sub : FVal → FVal → FVal
  | .fin a, .fin b => .fin (a - b)
  | _, _ => .nonfin

def FVal.mul : FVal → FVal → FVal
  | .fin a, .fin b => .fin (a * b)
  | _, _ => .nonfin

/-- A (flattened) tensor: a list of scalar elements. -/
abbrev Tensor := List FVal

/-- Embeds `tf.zeros_like`: an all-zero tensor of the same shape. -/
def zerosLike (t : Tensor) : Tensor := t.map (fun _ => FVal.fin 0)

/-- The shape signature of a structure of tensor leaves, used for
`nest.assert_same_structure` / `tf.assign` shape checks. -/
def tshapes (ts : List Tensor) : List Nat := ts.map List.length

/-- Embeds `model_utils.ModelWeights`: trainable and non-trainable weight leaves. -/
structure ModelWeights where
  trainable : List Tensor
  non_trainable : List Tensor
deriving DecidableEq

/-- The model collaborator contract used by `ClientFedAvg.__call__`:
`train_on_batch` mutates the model's internal (metrics) state and its
weight variables and returns predictions whose leading dimension is the
batch size; `aggregated_outputs` reads the metrics state. -/
structure TrainableModel (σ β α : Type) where
  trainOnBatch : σ → ModelWeights → β → σ × ModelWeights × Nat
  aggregatedOutputs : σ → α

/-- Embeds `ClientFedAvg`: the model it wraps and the optional client weight
function from `__init__`. -/
structure ClientFedAvg (σ β α : Type) where
  model : TrainableModel σ β α
  client_weight_fn : Option (α → FVal)

/-- The stats dictionary placed in `ClientOutput.optimizer_output`:
`num_examples` and the `has_non_finite_delta` integer flag. -/
structure ClientStats where
  num_examples : Nat
  has_non_finite_delta : Nat
deriving DecidableEq

/-- Embeds `optimizer_utils.ClientOutput` as constructed at the end of
`ClientFedAvg.__call__`. -/
structure ClientOutput (α : Type) where
  weights_delta : List Tensor
  weights_delta_weight : FVal
  model_output : α
  optimizer_output : ClientStats

/-- Modelled from the spec: `tensor_utils.zero_all_if_any_non_finite` is
imported from `tensorflow_federated.python.tensorflow_libs.tensor_utils`,
which is not among the sources.  Per the spec's non-finite guard, it scans
every leaf for NaN or infinite values; if any is found it returns all-zero
tensors of the same shapes together with flag 1, otherwise it returns its
input unchanged together with flag 0. -/
def zero_all_if_any_non_finite (ts : List Tensor) : List Tensor × Nat :=
  if ts.any (fun t => t.any (fun v => !v.isFinite)) then
    (ts.map zerosLike, 1)
  else
    (ts, 0)

/-- The body of `reduce_fn` inside `ClientFedAvg.__call__`: run
`train_on_batch` on one batch and add the batch size to the
`num_examples` variable.  The state triple is (model internal state,
model weight variables, `num_examples` variable). -/
def reduce_fn {σ β α : Type} (m : TrainableModel σ β α) :
    σ × ModelWeights × Nat → β → σ × ModelWeights × Nat :=
  fun st batch =>
    let r := m.trainOnBatch st.1 st.2.1 batch
    (r.1, r.2.1, st.2.2 + r.2.2)

/-- Embeds `dataset.reduce(... reduce_fn)`: a strict in-order left fold of
`reduce_fn` over the batches. -/
def localTraining {σ β α : Type} (m : TrainableModel σ β α)
    (st : σ × ModelWeights × Nat) (dataset : List β) : σ × ModelWeights × Nat :=
  dataset.foldl (reduce_fn m) st

/-- The `weights_delta` computed at line 93: the elementwise difference
between the post-training trainable weights and the initial trainable
weights, before the non-finite guard. -/
def clientDelta {σ β α : Type} (m : TrainableModel σ β α)
    (num_examples₀ : Nat) (s₀ : σ) (dataset : List β)
    (initial_weights : ModelWeights) : List Tensor :=
  List.zipWith (fun a b => List.zipWith FVal.sub a b)
    (localTraining m (s₀, initial_weights, num_examples₀) dataset).2.1.trainable
    initial_weights.trainable

/-- Embeds `ClientFedAvg.__call__`.  Here `num_examples₀` is the current value of the
`self._num_examples` variable (0 right after `__init__`), `s₀` the model's
internal metrics state.  The model weight variables are first assigned
from `initial_weights`, the dataset is reduced in order, the delta and the
client weight are computed, and the non-finite guard zeroes the delta and
forces the weight to 0 whenever any leaf is non-finite. -/
def ClientFedAvg.call {σ β α : Type} (c : ClientFedAvg σ β α)
    (num_examples₀ : Nat) (s₀ : σ) (dataset : List β)
    (initial_weights : ModelWeights) : ClientOutput α :=
  let st := localTraining c.model (s₀, initial_weights, num_examples₀) dataset
  let weights_delta := clientDelta c.model num_examples₀ s₀ dataset initial_weights
  let aggregated_outputs := c.model.aggregatedOutputs st.1
  let weights_delta_weight :=
    match c.client_weight_fn with
    | some f => f aggregated_outputs
    | none => FVal.fin (st.2.2 : ℚ)
  let zr := zero_all_if_any_non_finite weights_delta
  let weights_delta_weight₂ := if zr.2 = 0 then weights_delta_weight else FVal.fin 0
  ⟨zr.1, weights_delta_weight₂, aggregated_outputs, ⟨st.2.2, zr.2⟩⟩

/-- The sequence of batch sizes (leading dimensions of the predictions)
reported by `train_on_batch` along the fold, in dataset order. -/
def batchSizes {σ β α : Type} (m : TrainableModel σ β α) :
    σ → ModelWeights → List β → List Nat
  | _, _, [] => []
  | s, w, b :: bs =>
      let r := m.trainOnBatch s w b
      r.2.2 :: batchSizes m r.1 r.2.1 bs

/-- The trace of `train_on_batch` invocations performed by the fold: for
each invocation, the model internal state, the weight variable values at
entry, and the batch it is given, in invocation order. -/
def trainCalls {σ β α : Type} (m : TrainableModel σ β α) :
    σ → ModelWeights → List β → List (σ × ModelWeights × β)
  | _, _, [] => []
  | s, w, b :: bs =>
      let r := m.trainOnBatch s w b
      (s, w, b) :: trainCalls m r.1 r.2.1 bs

/-- The optimizer collaborator contract (`tf.train.Optimizer`):
`init` gives the values of the internal accumulator variables lazily
created on the first `apply_gradients` call (determined by the trainable
variables), and `step` is `apply_gradients`: from the gradients, the
current variable values and the current accumulator values it produces
the new variable values and the new accumulator values. -/
structure Optimizer where
  init : List Tensor → List Tensor
  step : List Tensor → List Tensor → List Tensor → List Tensor × List Tensor

/-- Embeds `ServerState`: model weights plus the optimizer's variables. -/
structure ServerState where
  model : ModelWeights
  optimizer_state : List Tensor
deriving DecidableEq

/-- The product `-1.0 * x` applied to every element of every delta leaf, as in the
`grads_and_vars` construction of `apply_delta`. -/
def negDelta (delta : List Tensor) : List Tensor :=
  delta.map (fun t => t.map (fun x => (FVal.fin (-1)).mul x))

/-- Embeds `apply_delta` from `_create_optimizer_and_server_state`: assert that
`delta` has the structure of the model's trainable weights, then invoke
the optimizer's update rule on the per-leaf pairs `(-1.0 * x, v)`.
`trainable` and `optVars` are the current values of the model's trainable
variables and the optimizer's variables; the result is their new values. -/
def apply_delta (opt : Optimizer) (trainable optVars : List Tensor)
    (delta : List Tensor) : Except String (List Tensor × List Tensor) :=
  if tshapes delta = tshapes trainable then
    Except.ok (opt.step (negDelta delta) trainable optVars)
  else
    Except.error "delta does not match the structure of the trainable weights"

/-- Embeds `_create_optimizer_and_server_state`: construct the model and
optimizer variables, trace `apply_delta` on a zero delta (the dry run,
which lazily creates the optimizer's variables and applies a zero
update), and return the resulting `ServerState` of those variables. -/
def create_optimizer_and_server_state (model₀ : ModelWeights)
    (opt : Optimizer) : ServerState :=
  let weights_delta := model₀.trainable.map zerosLike
  let optVars₀ := opt.init model₀.trainable
  let r := opt.step (negDelta weights_delta) model₀.trainable optVars₀
  ⟨⟨r.1, model₀.non_trainable⟩, r.2⟩

/-- Embeds `server_init`: the factories are deterministic, so `model_fn` is the
`ModelWeights` value it initializes and `optimizer_fn` the optimizer
strategy it returns. -/
def server_init (model₀ : ModelWeights) (opt : Optimizer) : ServerState :=
  create_optimizer_and_server_state model₀ opt

/-- The shape signature of a `ServerState`, used for the structural
`nest.map_structure(tf.assign, server_vars, server_state)` check in
`update_model_inner`. -/
def sshapes (s : ServerState) : List Nat × List Nat × List Nat :=
  (tshapes s.model.trainable, tshapes s.model.non_trainable,
   tshapes s.optimizer_state)

/-- Embeds `server_update_model`: rebuild fresh model and optimizer variables
via `_create_optimizer_and_server_state` (including its zero-delta dry
run), assign every value of `server_state` onto them, apply
`weights_delta` through `apply_delta`, and return the variables' values
as the new `ServerState`. -/
def server_update_model (server_state : ServerState)
    (weights_delta : List Tensor) (model₀ : ModelWeights) (opt : Optimizer) :
    Except String ServerState :=
  let server_vars := create_optimizer_and_server_state model₀ opt
  if sshapes server_vars = sshapes server_state then
    (apply_delta opt server_state.model.trainable server_state.optimizer_state
        weights_delta).map
      (fun r => ⟨⟨r.1, server_state.model.non_trainable⟩, r.2⟩)
  else
    Except.error "server_state does not match the structure of the fresh variables"

/-- The plain gradient-descent strategy (`tf.train.GradientDescentOptimizer`):
no internal variables; each variable moves by `-lr * gradient`. -/
def gradientDescent (lr : ℚ) : Optimizer where
  init := fun _ => []
  step := fun grads vars _ =>
    (List.zipWith (fun g v => List.zipWith
        (fun gx vx => vx.sub ((FVal.fin lr).mul gx)) g v) grads vars, [])

/-- A momentum strategy (`tf.train.MomentumOptimizer`): one accumulator
per trainable leaf, initialized to zero; `a ← m * a + g`, `v ← v - lr * a`. -/
def momentum (lr m : ℚ) : Optimizer where
  init := fun tr => tr.map zerosLike
  step := fun grads vars accs =>
    let accs₂ := List.zipWith (fun g a => List.zipWith
        (fun gx ax => ((FVal.fin m).mul ax).add gx) g a) grads accs
    (List.zipWith (fun a v => List.zipWith
        (fun ax vx => vx.sub ((FVal.fin lr).mul ax)) a v) accs₂ vars, accs₂)

/-- The optimizer-variable states that arise in the server pipeline when
only zero gradients are applied: the lazily created accumulators, and any
state reached from one of them by a further zero-gradient step (as in the
dry run of `_create_optimizer_and_server_state` followed by a zero-delta
`server_update_model`). -/
inductive ZeroReachable (opt : Optimizer) : List Tensor → List Tensor → Prop where
  | init : ∀ vars, ZeroReachable opt vars (opt.init vars)
  | step : ∀ vars accs, ZeroReachable opt vars accs →
      ZeroReachable opt (opt.step (vars.map zerosLike) vars accs).1
        (opt.step (vars.map zerosLike) vars accs).2

/-- The shape discipline TensorFlow variables impose on an optimizer:
the shapes of the lazily created accumulator variables depend only on the
shapes of the trainable variables, and `apply_gradients` writes back into
the same fixed-shape variables. -/
def WellShaped (opt : Optimizer) : Prop :=
  (∀ v w, tshapes v = tshapes w → tshapes (opt.init v) = tshapes (opt.init w)) ∧
  (∀ g v a, tshapes g = tshapes v → tshapes a = tshapes (opt.init v) →
    tshapes (opt.step g v a).1 = tshapes v ∧ tshapes (opt.step g v a).2 = tshapes a)

/-- The simpler pipeline C10 compares `server_update_model` against,
following the spec's words: construct the model and optimizer variables
(shapes declared by the factories and the strategy), copy `server_state`
into them, and apply the delta once — no zero-delta dry run. -/
def serverUpdateSimple (server_state : ServerState)
    (weights_delta : List Tensor) (model₀ : ModelWeights) (opt : Optimizer) :
    Except String ServerState :=
  if (tshapes model₀.trainable, tshapes model₀.non_trainable,
      tshapes (opt.init model₀.trainable)) = sshapes server_state then
    (apply_delta opt server_state.model.trainable server_state.optimizer_state
        weights_delta).map
      (fun r => ⟨⟨r.1, server_state.model.non_trainable⟩, r.2⟩)
  else
    Except.error "server_state does not match the structure of the fresh variables"

/-!  Concrete fixtures used in witnesses and counterexamples. -/

/-- A concrete server model: one scalar trainable weight initialized
to 1, no non-trainable weights. -/
def srvModel : ModelWeights := ⟨[[FVal.fin 1]], []⟩

/-- A concrete momentum strategy with learning rate 1 and momentum
coefficient 2. -/
def srvMomentum : Optimizer := momentum 1 2

/-- First concrete aggregated delta. -/
def srvDelta₁ : List Tensor := [[FVal.fin 1]]

/-- Second concrete aggregated delta. -/
def srvDelta₂ : List Tensor := [[FVal.fin 0]]

/-- A concrete model: each training step adds 1 to every weight element,
a batch is its own size, metrics are trivial. -/
def incModel : TrainableModel Unit Nat Nat where
  trainOnBatch := fun _ w b =>
    ((), ⟨w.trainable.map (fun t => t.map (fun v => v.add (FVal.fin 1))),
      w.non_trainable⟩, b)
  aggregatedOutputs := fun _ => 0

/-- A client over `incModel` with the default weight function. -/
def incClient : ClientFedAvg Unit Nat Nat := ⟨incModel, none⟩

/-- A concrete model whose training step corrupts every weight element to
a non-finite value. -/
def nanModel : TrainableModel Unit Nat Nat where
  trainOnBatch := fun _ w b =>
    ((), ⟨w.trainable.map (fun t => t.map (fun _ => FVal.nonfin)),
      w.non_trainable⟩, b)
  aggregatedOutputs := fun _ => 0

/-- A client over `nanModel` with a custom client weight function that
always returns 42. -/
def nanClient : ClientFedAvg Unit Nat Nat := ⟨nanModel, some (fun _ => FVal.fin 42)⟩

/-- Concrete initial weights: one trainable leaf, one non-trainable leaf. -/
def w1 : ModelWeights := ⟨[[FVal.fin 1]], [[FVal.fin 5]]⟩

/-!  Helper lemmas. -/

theorem localTraining_nil {σ β α : Type} (m : TrainableModel σ β α)
    (st : σ × ModelWeights × Nat) : localTraining m st ([] : List β) = st := rfl

theorem localTraining_cons {σ β α : Type} (m : TrainableModel σ β α)
    (st : σ × ModelWeights × Nat) (b : β) (ds : List β) :
    localTraining m st (b :: ds) = localTraining m (reduce_fn m st b) ds := rfl

theorem localTraining_append {σ β α : Type} (m : TrainableModel σ β α)
    (st : σ × ModelWeights × Nat) (ds es : List β) :
    localTraining m st (ds ++ es) = localTraining m (localTraining m st ds) es :=
  List.foldl_append ..

/-- The `num_examples` component of the fold is its starting value plus
the sum of the batch sizes reported along the fold. -/
theorem localTraining_num_examples {σ β α : Type} (m : TrainableModel σ β α)
    (ds : List β) (s : σ) (w : ModelWeights) (n : Nat) :
    (localTraining m (s, w, n) ds).2.2 = n + (batchSizes m s w ds).sum := by
  induction ds generalizing s w n with
  | nil => simp [localTraining_nil, batchSizes]
  | cons b bs ih =>
      rw [localTraining_cons, batchSizes]
      simp only [reduce_fn]
      rw [ih]
      simp [Nat.add_assoc]

/-- Case analysis of the non-finite guard at the end of
`ClientFedAvg.__call__` (shared helper). -/
theorem clientCall_guard {σ β α : Type} (c : ClientFedAvg σ β α)
    (n₀ : Nat) (s₀ : σ) (ds : List β) (iw : ModelWeights) :
    ((clientDelta c.model n₀ s₀ ds iw).any
        (fun t => t.any (fun v => !v.isFinite)) = true →
      (c.call n₀ s₀ ds iw).weights_delta
          = (clientDelta c.model n₀ s₀ ds iw).map zerosLike ∧
      (c.call n₀ s₀ ds iw).optimizer_output.has_non_finite_delta = 1 ∧
      (c.call n₀ s₀ ds iw).weights_delta_weight = FVal.fin 0) ∧
    ((clientDelta c.model n₀ s₀ ds iw).any
        (fun t => t.any (fun v => !v.isFinite)) = false →
      (c.call n₀ s₀ ds iw).weights_delta = clientDelta c.model n₀ s₀ ds iw ∧
      (c.call n₀ s₀ ds iw).optimizer_output.has_non_finite_delta = 0 ∧
      (c.call n₀ s₀ ds iw).weights_delta_weight
          = (match c.client_weight_fn with
             | some f => f (c.model.aggregatedOutputs
                 (localTraining c.model (s₀, iw, n₀) ds).1)
             | none => FVal.fin ((localTraining c.model (s₀, iw, n₀) ds).2.2 : ℚ))) := by
  constructor <;> intro h <;>
    simp [ClientFedAvg.call, zero_all_if_any_non_finite, h]

/-- C1: in `ClientFedAvg.__call__`, if any leaf of the computed
`weights_delta` contains a non-finite value, the returned `ClientOutput`
has every leaf of `weights_delta` replaced by an all-zero tensor of the
same shape, `has_non_finite_delta = 1`, and weight 0 regardless of
`client_weight_fn`; if every leaf is finite, `weights_delta` and the
weight computed by `client_weight_fn` are returned unchanged. -/
theorem client_non_finite_guard {σ β α : Type} (c : ClientFedAvg σ β α)
    (n₀ : Nat) (s₀ : σ) (ds : List β) (iw : ModelWeights) :
    ((clientDelta c.model n₀ s₀ ds iw).any
        (fun t => t.any (fun v => !v.isFinite)) = true →
      (c.call n₀ s₀ ds iw).weights_delta
          = (clientDelta c.model n₀ s₀ ds iw).map zerosLike ∧
      (c.call n₀ s₀ ds iw).optimizer_output.has_non_finite_delta = 1 ∧
      (c.call n₀ s₀ ds iw).weights_delta_weight = FVal.fin 0) ∧
    ((clientDelta c.model n₀ s₀ ds iw).any
        (fun t => t.any (fun v => !v.isFinite)) = false →
      (c.call n₀ s₀ ds iw).weights_delta = clientDelta c.model n₀ s₀ ds iw ∧
      (c.call n₀ s₀ ds iw).optimizer_output.has_non_finite_delta = 0 ∧
      (c.call n₀ s₀ ds iw).weights_delta_weight
          = (match c.client_weight_fn with
             | some f => f (c.model.aggregatedOutputs
                 (localTraining c.model (s₀, iw, n₀) ds).1)
             | none => FVal.fin ((localTraining c.model (s₀, iw, n₀) ds).2.2 : ℚ))) :=
  clientCall_guard c n₀ s₀ ds iw

/-- Witness for C1 at a concrete corrupted client with a custom client
weight function. -/
theorem client_non_finite_guard_witness :
    ((clientDelta nanClient.model 0 () [1] w1).any
        (fun t => t.any (fun v => !v.isFinite)) = true) ∧
    ((nanClient.call 0 () [1] w1).weights_delta
        = (clientDelta nanClient.model 0 () [1] w1).map zerosLike ∧
      (nanClient.call 0 () [1] w1).optimizer_output.has_non_finite_delta = 1 ∧
      (nanClient.call 0 () [1] w1).weights_delta_weight = FVal.fin 0) :=
  ⟨by decide, (client_non_finite_guard nanClient 0 () [1] w1).1 (by decide)⟩

/-- C6 counterexample: on a second `__call__` of the same `ClientFedAvg`
instance, the `num_examples` variable (created once in `__init__` and
never reset) keeps its value from the first call: a second call over one
batch of size 2 reports 4 examples, not 2. -/
theorem num_examples_second_call_counterexample :
    (incClient.call ((incClient.call 0 () [2] w1).optimizer_output.num_examples)
        () [2] w1).optimizer_output.num_examples = 4 ∧ (4 : Nat) ≠ 2 := by
  refine ⟨?_, by decide⟩
  decide

/-- C6 amended: the returned `num_examples` equals the `num_examples`
variable's value at entry (0 right after `__init__`, and not reset
between calls) plus the sum of the sizes of the batches of this
invocation's dataset. -/
theorem num_examples_accumulates {σ β α : Type} (c : ClientFedAvg σ β α)
    (n₀ : Nat) (s₀ : σ) (ds : List β) (iw : ModelWeights) :
    (c.call n₀ s₀ ds iw).optimizer_output.num_examples
      = n₀ + (batchSizes c.model s₀ iw ds).sum := by
  simp [ClientFedAvg.call, localTraining_num_examples]

theorem mem_zipWith_self {f : FVal → FVal → FVal} {l : List FVal} {v : FVal}
    (hv : v ∈ List.zipWith f l l) : ∃ x ∈ l, v = f x x := by
  induction l with
  | nil => simp at hv
  | cons a as ih =>
      rw [List.zipWith_cons_cons] at hv
      rcases List.mem_cons.1 hv with h | h
      · exact ⟨a, List.mem_cons_self .., h⟩
      · obtain ⟨x, hx, hvx⟩ := ih h
        exact ⟨x, List.mem_cons_of_mem a hx, hvx⟩

theorem zipWith_sub_self_map (ts : List Tensor) :
    List.zipWith (fun a b => List.zipWith FVal.sub a b) ts ts
      = ts.map (fun t => List.zipWith FVal.sub t t) := by
  induction ts with
  | nil => rfl
  | cons t ts ih => simp [ih]

/-- C8: a call on a freshly constructed client (counter variable at its
initial value 0) with an empty dataset reports 0 examples, weight 0 under
the default weight function, and an all-zero `weights_delta`. -/
theorem client_empty_dataset {σ β α : Type} (c : ClientFedAvg σ β α)
    (s₀ : σ) (iw : ModelWeights) (hfn : c.client_weight_fn = none) :
    (c.call 0 s₀ ([] : List β) iw).optimizer_output.num_examples = 0 ∧
    (c.call 0 s₀ ([] : List β) iw).weights_delta_weight = FVal.fin 0 ∧
    ∀ t ∈ (c.call 0 s₀ ([] : List β) iw).weights_delta, ∀ v ∈ t, v = FVal.fin 0 := by
  have hδ : clientDelta c.model 0 s₀ ([] : List β) iw
      = iw.trainable.map (fun t => List.zipWith FVal.sub t t) := by
    simp only [clientDelta, localTraining_nil]
    exact zipWith_sub_self_map iw.trainable
  refine ⟨?_, ?_, ?_⟩
  · simp [ClientFedAvg.call, localTraining_nil]
  · by_cases hnf : (clientDelta c.model 0 s₀ ([] : List β) iw).any
        (fun t => t.any (fun v => !v.isFinite)) = true
    · exact ((clientCall_guard c 0 s₀ [] iw).1 hnf).2.2
    · have h₂ := ((clientCall_guard c 0 s₀ [] iw).2
        (Bool.eq_false_iff.2 hnf)).2.2
      rw [h₂, hfn]
      simp [localTraining_nil]
  · intro t ht v hv
    by_cases hnf : (clientDelta c.model 0 s₀ ([] : List β) iw).any
        (fun t => t.any (fun v => !v.isFinite)) = true
    · have h₁ := ((clientCall_guard c 0 s₀ [] iw).1 hnf).1
      rw [h₁] at ht
      obtain ⟨u, _, rfl⟩ := List.mem_map.1 ht
      obtain ⟨x, _, rfl⟩ := List.mem_map.1 hv
      rfl
    · have hnf₂ : (clientDelta c.model 0 s₀ ([] : List β) iw).any
          (fun t => t.any (fun v => !v.isFinite)) = false :=
        Bool.eq_false_iff.2 hnf
      have h₁ := ((clientCall_guard c 0 s₀ [] iw).2 hnf₂).1
      rw [h₁, hδ] at ht
      obtain ⟨u, hu, rfl⟩ := List.mem_map.1 ht
      have hfin : v.isFinite = true := by
        rw [hδ, List.any_eq_false] at hnf₂
        have h₃ := hnf₂ _ (List.mem_map_of_mem (fun t => List.zipWith FVal.sub t t) hu)
        simp only [List.any_eq_true, not_exists, not_and] at h₃
        simpa using h₃ v hv
      obtain ⟨x, _, rfl⟩ := mem_zipWith_self hv
      cases x with
      | fin q => simp [FVal.sub]
      | nonfin => simp [FVal.sub, FVal.isFinite] at hfin

/-- Witness for C8 at the concrete incrementing client. -/
theorem client_empty_dataset_witness :
    (incClient.client_weight_fn = none) ∧
    ((incClient.call 0 () ([] : List Nat) w1).optimizer_output.num_examples = 0 ∧
     (incClient.call 0 () ([] : List Nat) w1).weights_delta_weight = FVal.fin 0 ∧
     ∀ t ∈ (incClient.call 0 () ([] : List Nat) w1).weights_delta,
       ∀ v ∈ t, v = FVal.fin 0) :=
  ⟨rfl, client_empty_dataset incClient () w1 rfl⟩

/-- C7: `ClientFedAvg.__call__` is a strict in-order left fold: the
batches at which `train_on_batch` is invoked are exactly the dataset, in
dataset order, once each; the fold over `ds ++ [b]` trains on `b` last,
from the state reached after all of `ds`; and (when the non-finite guard
does not fire) the returned `weights_delta` is the elementwise per-leaf
difference between the post-fold trainable weights and
`initial_weights.trainable`. -/
theorem client_in_order_left_fold {σ β α : Type} (c : ClientFedAvg σ β α)
    (n₀ : Nat) (s₀ : σ) (ds : List β) (b : β) (iw : ModelWeights) :
    ((trainCalls c.model s₀ iw ds).map (fun r => r.2.2) = ds) ∧
    (localTraining c.model (s₀, iw, n₀) (ds ++ [b])
       = reduce_fn c.model (localTraining c.model (s₀, iw, n₀) ds) b) ∧
    ((clientDelta c.model n₀ s₀ ds iw).any
        (fun t => t.any (fun v => !v.isFinite)) = false →
      (c.call n₀ s₀ ds iw).weights_delta
        = List.zipWith (fun a b => List.zipWith FVal.sub a b)
            (localTraining c.model (s₀, iw, n₀) ds).2.1.trainable iw.trainable) := by
  refine ⟨?_, ?_, ?_⟩
  · induction ds generalizing s₀ iw with
    | nil => rfl
    | cons x xs ih => simp [trainCalls, ih]
  · rw [localTraining_append]
    rfl
  · intro h
    exact ((clientCall_guard c n₀ s₀ ds iw).2 h).1

/-- Witness for C7 at the concrete incrementing client. -/
theorem client_in_order_left_fold_witness :
    ((trainCalls incClient.model () w1 [2, 3]).map (fun r => r.2.2) = [2, 3]) ∧
    (localTraining incClient.model ((), w1, 0) ([2, 3] ++ [4])
       = reduce_fn incClient.model (localTraining incClient.model ((), w1, 0) [2, 3]) 4) ∧
    ((incClient.call 0 () [2, 3] w1).weights_delta
        = List.zipWith (fun a b => List.zipWith FVal.sub a b)
            (localTraining incClient.model ((), w1, 0) [2, 3]).2.1.trainable
            w1.trainable) := by
  obtain ⟨h₁, h₂, h₃⟩ := client_in_order_left_fold incClient 0 () [2, 3] 4 w1
  exact ⟨h₁, h₂, h₃ (by decide)⟩

/-!  Shape helper lemmas. -/

theorem tshapes_map_zerosLike (l : List Tensor) :
    tshapes (l.map zerosLike) = tshapes l := by
  simp [tshapes, zerosLike, List.map_map, Function.comp]

theorem tshapes_negDelta (δ : List Tensor) : tshapes (negDelta δ) = tshapes δ := by
  simp [tshapes, negDelta, List.map_map, Function.comp]

theorem tshapes_zipWith (f : FVal → FVal → FVal) (a b : List Tensor)
    (h : tshapes a = tshapes b) :
    tshapes (List.zipWith (fun x y => List.zipWith f x y) a b) = tshapes b := by
  induction a generalizing b with
  | nil =>
      cases b with
      | nil => rfl
      | cons y ys => simp [tshapes] at h
  | cons x xs ih =>
      cases b with
      | nil => simp [tshapes] at h
      | cons y ys =>
          simp only [tshapes, List.map_cons, List.cons.injEq] at h
          simp only [List.zipWith_cons_cons, tshapes, List.map_cons,
            List.cons.injEq]
          exact ⟨by rw [List.length_zipWith, h.1, Nat.min_self],
            ih ys h.2⟩

theorem negDelta_zeros (l : List Tensor) :
    negDelta (l.map zerosLike) = l.map zerosLike := by
  simp only [negDelta, List.map_map, Function.comp]
  apply List.map_congr_left
  intro t _
  simp only [zerosLike, List.map_map, Function.comp]
  apply List.map_congr_left
  intro v _
  norm_num [FVal.mul]

/-- An all-zero tensor with the length of `y` is `zerosLike y`. -/
theorem all_zero_tensor_eq_zerosLike (x y : Tensor)
    (hlen : x.length = y.length) (hx : ∀ v ∈ x, v = FVal.fin 0) :
    x = zerosLike y := by
  induction x generalizing y with
  | nil =>
      cases y with
      | nil => rfl
      | cons b bs => simp at hlen
  | cons a as iha =>
      cases y with
      | nil => simp at hlen
      | cons b bs =>
          simp only [zerosLike, List.map_cons, List.cons.injEq]
          refine ⟨hx a (List.mem_cons_self ..), ?_⟩
          have h₂ := iha bs (by simpa using hlen)
            (fun v hv => hx v (List.mem_cons_of_mem a hv))
          simpa [zerosLike] using h₂

/-- An all-zero structure with the shapes of `l` is `l.map zerosLike`. -/
theorem all_zero_eq_map_zerosLike (δ l : List Tensor)
    (hs : tshapes δ = tshapes l) (hz : ∀ t ∈ δ, ∀ v ∈ t, v = FVal.fin 0) :
    δ = l.map zerosLike := by
  induction δ generalizing l with
  | nil =>
      cases l with
      | nil => rfl
      | cons y ys => simp [tshapes] at hs
  | cons x xs ih =>
      cases l with
      | nil => simp [tshapes] at hs
      | cons y ys =>
          simp only [tshapes, List.map_cons, List.cons.injEq] at hs
          simp only [List.map_cons, List.cons.injEq]
          exact ⟨all_zero_tensor_eq_zerosLike x y hs.1
              (hz x (List.mem_cons_self ..)),
            ih ys hs.2 (fun t ht => hz t (List.mem_cons_of_mem x ht))⟩

/-- Under the shape discipline, the state constructed by
`_create_optimizer_and_server_state` has exactly the shapes declared by
the factories and the strategy. -/
theorem create_sshapes (m₀ : ModelWeights) (opt : Optimizer)
    (hwf : WellShaped opt) :
    sshapes (create_optimizer_and_server_state m₀ opt)
      = (tshapes m₀.trainable, tshapes m₀.non_trainable,
         tshapes (opt.init m₀.trainable)) := by
  have h := hwf.2 (negDelta (m₀.trainable.map zerosLike)) m₀.trainable
    (opt.init m₀.trainable)
    (by rw [tshapes_negDelta, tshapes_map_zerosLike]) rfl
  simp only [create_optimizer_and_server_state, sshapes]
  exact congrArg₂ _ h.1 (congrArg _ h.2)

/-!  Gradient-descent strategy lemmas. -/

theorem gd_zero_noop (lr : ℚ) (vars accs : List Tensor) :
    ((gradientDescent lr).step (vars.map zerosLike) vars accs).1 = vars := by
  simp only [gradientDescent]
  induction vars with
  | nil => rfl
  | cons t ts ih =>
      simp only [List.map_cons, List.zipWith_cons_cons, List.cons.injEq]
      refine ⟨?_, ih⟩
      induction t with
      | nil => rfl
      | cons v vs ihv =>
          simp only [zerosLike, List.map_cons, List.zipWith_cons_cons,
            List.cons.injEq]
          refine ⟨?_, by simpa [zerosLike] using ihv⟩
          cases v with
          | fin q => norm_num [FVal.sub, FVal.mul]
          | nonfin => rfl

theorem gd_wellShaped (lr : ℚ) : WellShaped (gradientDescent lr) := by
  constructor
  · intro v w _
    rfl
  · intro g v a hg ha
    constructor
    · exact tshapes_zipWith _ g v hg
    · simpa [gradientDescent, tshapes] using ha.symm

/-- C3: `server_update_model` copies every value of the input
`server_state` into the freshly constructed variables before applying the
delta: its result is the optimizer step taken from exactly the previous
round's model weights and optimizer state, and it does not depend on the
factories' freshly initialized values. -/
theorem server_update_rehydrates (s : ServerState) (δ : List Tensor)
    (m₀ m₁ : ModelWeights) (opt : Optimizer)
    (h₀ : sshapes (create_optimizer_and_server_state m₀ opt) = sshapes s)
    (h₁ : sshapes (create_optimizer_and_server_state m₁ opt) = sshapes s) :
    server_update_model s δ m₀ opt
      = (apply_delta opt s.model.trainable s.optimizer_state δ).map
          (fun r => ⟨⟨r.1, s.model.non_trainable⟩, r.2⟩) ∧
    server_update_model s δ m₀ opt = server_update_model s δ m₁ opt := by
  simp only [server_update_model]
  rw [if_pos h₀, if_pos h₁]
  exact ⟨rfl, rfl⟩

/-- Witness for C3 with the gradient-descent strategy at a concrete
state, delta and pair of factory initializations. -/
theorem server_update_rehydrates_witness :
    (sshapes (create_optimizer_and_server_state ⟨[[FVal.fin 7]], []⟩
        (gradientDescent 1))
      = sshapes (⟨⟨[[FVal.fin 1]], []⟩, []⟩ : ServerState)) ∧
    (sshapes (create_optimizer_and_server_state ⟨[[FVal.fin 3]], []⟩
        (gradientDescent 1))
      = sshapes (⟨⟨[[FVal.fin 1]], []⟩, []⟩ : ServerState)) ∧
    (server_update_model ⟨⟨[[FVal.fin 1]], []⟩, []⟩ [[FVal.fin 2]]
        ⟨[[FVal.fin 7]], []⟩ (gradientDescent 1)
      = (apply_delta (gradientDescent 1) [[FVal.fin 1]] [] [[FVal.fin 2]]).map
          (fun r => ⟨⟨r.1, []⟩, r.2⟩) ∧
     server_update_model ⟨⟨[[FVal.fin 1]], []⟩, []⟩ [[FVal.fin 2]]
        ⟨[[FVal.fin 7]], []⟩ (gradientDescent 1)
      = server_update_model ⟨⟨[[FVal.fin 1]], []⟩, []⟩ [[FVal.fin 2]]
        ⟨[[FVal.fin 3]], []⟩ (gradientDescent 1)) :=
  ⟨by decide, by decide,
   server_update_rehydrates ⟨⟨[[FVal.fin 1]], []⟩, []⟩ [[FVal.fin 2]]
     ⟨[[FVal.fin 7]], []⟩ ⟨[[FVal.fin 3]], []⟩ (gradientDescent 1)
     (by decide) (by decide)⟩

/-- C9: a structural mismatch between the delta and the model's trainable
weights makes `apply_delta` (used by both `server_init`'s helper and
`server_update_model`) return an error, and makes `server_update_model`
return an error rather than coercing or partially applying the delta. -/
theorem server_structural_mismatch_fails (opt : Optimizer)
    (tr ov δ : List Tensor) (s : ServerState) (m₀ : ModelWeights)
    (h : tshapes δ ≠ tshapes tr)
    (h₂ : tshapes δ ≠ tshapes s.model.trainable) :
    apply_delta opt tr ov δ
      = Except.error "delta does not match the structure of the trainable weights" ∧
    ∃ msg, server_update_model s δ m₀ opt = Except.error msg := by
  constructor
  · simp only [apply_delta]
    rw [if_neg h]
  · simp only [server_update_model]
    by_cases hs : sshapes (create_optimizer_and_server_state m₀ opt) = sshapes s
    · rw [if_pos hs]
      simp only [apply_delta]
      rw [if_neg h₂]
      exact ⟨_, rfl⟩
    · rw [if_neg hs]
      exact ⟨_, rfl⟩

/-- Witness for C9 at a concrete two-element delta against a one-element
trainable structure. -/
theorem server_structural_mismatch_fails_witness :
    (tshapes [[FVal.fin 1], [FVal.fin 2]] ≠ tshapes [[FVal.fin 1]]) ∧
    (apply_delta (gradientDescent 1) [[FVal.fin 1]] []
        [[FVal.fin 1], [FVal.fin 2]]
      = Except.error "delta does not match the structure of the trainable weights" ∧
     ∃ msg, server_update_model ⟨⟨[[FVal.fin 1]], []⟩, []⟩
        [[FVal.fin 1], [FVal.fin 2]] ⟨[[FVal.fin 0]], []⟩ (gradientDescent 1)
          = Except.error msg) :=
  ⟨by decide,
   server_structural_mismatch_fails (gradientDescent 1) [[FVal.fin 1]] []
     [[FVal.fin 1], [FVal.fin 2]] ⟨⟨[[FVal.fin 1]], []⟩, []⟩
     ⟨[[FVal.fin 0]], []⟩ (by decide) (by decide)⟩

theorem FVal.gd_one_scalar (v d : FVal) :
    v.sub ((FVal.fin 1).mul ((FVal.fin (-1)).mul d)) = v.add d := by
  cases v <;> cases d <;> simp [FVal.sub, FVal.mul, FVal.add]

theorem gd_one_leaf (t d : Tensor) :
    List.zipWith (fun gx vx => vx.sub ((FVal.fin 1).mul gx))
        (d.map (fun x => (FVal.fin (-1)).mul x)) t
      = List.zipWith FVal.add t d := by
  induction d generalizing t with
  | nil => cases t <;> rfl
  | cons a as ih =>
      cases t with
      | nil => rfl
      | cons v vs =>
          simp only [List.map_cons, List.zipWith_cons_cons, List.cons.injEq]
          exact ⟨FVal.gd_one_scalar v a, ih vs⟩

theorem gd_one_apply (δ tr : List Tensor) :
    List.zipWith
        (fun g v => List.zipWith (fun gx vx => vx.sub ((FVal.fin 1).mul gx)) g v)
        (negDelta δ) tr
      = List.zipWith (fun t d => List.zipWith FVal.add t d) tr δ := by
  induction δ generalizing tr with
  | nil => cases tr <;> rfl
  | cons d ds ih =>
      cases tr with
      | nil => rfl
      | cons t ts =>
          simp only [negDelta, List.map_cons, List.zipWith_cons_cons,
            List.cons.injEq]
          exact ⟨gd_one_leaf t d, by simpa [negDelta] using ih ts⟩

/-- C2: `apply_delta` hands the optimizer's update rule the per-leaf
pairs `(-1.0 * delta_leaf, variable_leaf)`; with the plain
gradient-descent rule at learning rate 1 the new trainable weights are
the old weights plus the delta; in the end-to-end scenario (scalar weight
1.0, aggregated delta -0.1) the post-update weight is 0.9. -/
theorem server_update_negates_delta :
    (∀ (opt : Optimizer) (tr ov δ : List Tensor), tshapes δ = tshapes tr →
      apply_delta opt tr ov δ = Except.ok (opt.step (negDelta δ) tr ov)) ∧
    (∀ (s : ServerState) (δ : List Tensor) (m₀ : ModelWeights),
      sshapes (create_optimizer_and_server_state m₀ (gradientDescent 1))
          = sshapes s →
      tshapes δ = tshapes s.model.trainable →
      server_update_model s δ m₀ (gradientDescent 1)
        = Except.ok ⟨⟨List.zipWith (fun t d => List.zipWith FVal.add t d)
            s.model.trainable δ, s.model.non_trainable⟩, []⟩) ∧
    (server_update_model ⟨⟨[[FVal.fin 1]], []⟩, []⟩ [[FVal.fin (-1/10)]]
        ⟨[[FVal.fin 0]], []⟩ (gradientDescent 1)
      = Except.ok ⟨⟨[[FVal.fin (9/10)]], []⟩, []⟩) := by
  refine ⟨?_, ?_, ?_⟩
  · intro opt tr ov δ h
    simp only [apply_delta]
    rw [if_pos h]
  · intro s δ m₀ h₀ hδ
    simp only [server_update_model]
    rw [if_pos h₀]
    simp only [apply_delta]
    rw [if_pos hδ]
    simp only [Except.map, gradientDescent, gd_one_apply]
  · simp [server_update_model, create_optimizer_and_server_state, apply_delta,
      gradientDescent, sshapes, tshapes, negDelta, zerosLike, FVal.mul,
      FVal.sub, Except.map]
    norm_num

/-- Witness for C2's general parts at a concrete state and delta. -/
theorem server_update_negates_delta_witness :
    (tshapes [[FVal.fin 2]] = tshapes [[FVal.fin 1]] ∧
      apply_delta (gradientDescent 1) [[FVal.fin 1]] [] [[FVal.fin 2]]
        = Except.ok ((gradientDescent 1).step (negDelta [[FVal.fin 2]])
            [[FVal.fin 1]] [])) ∧
    (server_update_model ⟨⟨[[FVal.fin 1]], []⟩, []⟩ [[FVal.fin 2]]
        ⟨[[FVal.fin 0]], []⟩ (gradientDescent 1)
      = Except.ok ⟨⟨List.zipWith (fun t d => List.zipWith FVal.add t d)
          [[FVal.fin 1]] [[FVal.fin 2]], []⟩, []⟩) :=
  ⟨⟨by decide, server_update_negates_delta.1 (gradientDescent 1)
      [[FVal.fin 1]] [] [[FVal.fin 2]] (by decide)⟩,
   server_update_negates_delta.2.1 ⟨⟨[[FVal.fin 1]], []⟩, []⟩ [[FVal.fin 2]]
     ⟨[[FVal.fin 0]], []⟩ (by decide) (by decide)⟩

theorem mem_zipWith {α β γ : Type} {f : α → β → γ} {as : List α}
    {bs : List β} {c : γ} (hc : c ∈ List.zipWith f as bs) :
    ∃ x ∈ as, ∃ y ∈ bs, c = f x y := by
  induction as generalizing bs with
  | nil => simp at hc
  | cons a as ih =>
      cases bs with
      | nil => simp at hc
      | cons b bs =>
          rw [List.zipWith_cons_cons] at hc
          rcases List.mem_cons.1 hc with h | h
          · exact ⟨a, List.mem_cons_self .., b, List.mem_cons_self .., h⟩
          · obtain ⟨x, hx, y, hy, hcxy⟩ := ih h
            exact ⟨x, List.mem_cons_of_mem a hx, y,
              List.mem_cons_of_mem b hy, hcxy⟩

/-- One zero-gradient momentum accumulator update taken from an all-zero
accumulator state of matching shapes is again all-zero, with the same
shapes. -/
theorem momentum_zero_acc_step (m : ℚ) (vars accs : List Tensor)
    (ihs : tshapes accs = tshapes vars)
    (ihz : ∀ t ∈ accs, ∀ v ∈ t, v = FVal.fin 0) :
    tshapes (List.zipWith (fun g a => List.zipWith
        (fun gx ax => ((FVal.fin m).mul ax).add gx) g a)
        (vars.map zerosLike) accs) = tshapes accs ∧
    ∀ t ∈ (List.zipWith (fun g a => List.zipWith
        (fun gx ax => ((FVal.fin m).mul ax).add gx) g a)
        (vars.map zerosLike) accs), ∀ v ∈ t, v = FVal.fin 0 := by
  constructor
  · exact tshapes_zipWith _ _ _ ((tshapes_map_zerosLike vars).trans ihs.symm)
  · intro t ht v hv
    obtain ⟨g, hg, acc, hacc, rfl⟩ := mem_zipWith ht
    obtain ⟨gx, hgx, ax, hax, rfl⟩ := mem_zipWith hv
    obtain ⟨u, _, rfl⟩ := List.mem_map.1 hg
    have hgx0 : gx = FVal.fin 0 := by
      simp only [zerosLike] at hgx
      obtain ⟨x, _, rfl⟩ := List.mem_map.1 hgx
      rfl
    have hax0 : ax = FVal.fin 0 := ihz acc hacc ax hax
    rw [hgx0, hax0]
    norm_num [FVal.mul, FVal.add]

/-- Along zero-gradient steps from lazy creation, momentum accumulators
keep the shapes of the variables and stay value-zero. -/
theorem momentum_zeroReachable_acc (lr m : ℚ) (vars accs : List Tensor)
    (h : ZeroReachable (momentum lr m) vars accs) :
    tshapes accs = tshapes vars ∧ ∀ t ∈ accs, ∀ v ∈ t, v = FVal.fin 0 := by
  induction h with
  | init w =>
      constructor
      · simp [momentum, tshapes_map_zerosLike]
      · intro t ht v hv
        simp only [momentum] at ht
        obtain ⟨u, _, rfl⟩ := List.mem_map.1 ht
        simp only [zerosLike] at hv
        obtain ⟨x, _, rfl⟩ := List.mem_map.1 hv
        rfl
  | step w a hr ih =>
      obtain ⟨ihs, ihz⟩ := ih
      obtain ⟨hsh₂, hz₂⟩ := momentum_zero_acc_step m w a ihs ihz
      constructor
      · simp only [momentum]
        exact (hsh₂.trans ihs).trans
          (tshapes_zipWith _ _ w (hsh₂.trans ihs)).symm
      · simp only [momentum]
        exact hz₂

theorem sub_lr_zero_noop (lr : ℚ) (a v : Tensor) (hlen : a.length = v.length)
    (hz : ∀ x ∈ a, x = FVal.fin 0) :
    List.zipWith (fun ax vx => vx.sub ((FVal.fin lr).mul ax)) a v = v := by
  induction a generalizing v with
  | nil =>
      cases v with
      | nil => rfl
      | cons y ys => simp at hlen
  | cons x xs ih =>
      cases v with
      | nil => simp at hlen
      | cons y ys =>
          rw [List.zipWith_cons_cons]
          rw [hz x (List.mem_cons_self ..)]
          rw [ih ys (by simpa using hlen)
            (fun z hzz => hz z (List.mem_cons_of_mem _ hzz))]
          congr 1
          cases y with
          | fin q => norm_num [FVal.sub, FVal.mul]
          | nonfin => rfl

theorem momentum_noop_outer (lr : ℚ) (accs₂ vars : List Tensor)
    (hsh : tshapes accs₂ = tshapes vars)
    (hz : ∀ t ∈ accs₂, ∀ x ∈ t, x = FVal.fin 0) :
    List.zipWith (fun a v => List.zipWith
        (fun ax vx => vx.sub ((FVal.fin lr).mul ax)) a v) accs₂ vars
      = vars := by
  induction accs₂ generalizing vars with
  | nil =>
      cases vars with
      | nil => rfl
      | cons y ys => simp [tshapes] at hsh
  | cons a as ih =>
      cases vars with
      | nil => simp [tshapes] at hsh
      | cons v vs =>
          simp only [tshapes, List.map_cons, List.cons.injEq] at hsh
          rw [List.zipWith_cons_cons]
          rw [sub_lr_zero_noop lr a v hsh.1 (hz a (List.mem_cons_self ..))]
          rw [ih vs hsh.2 (fun t ht => hz t (List.mem_cons_of_mem a ht))]

/-- For the momentum strategy, a zero-gradient step taken from any
accumulator state reachable in the server pipeline moves no variable. -/
theorem momentum_zero_noop (lr m : ℚ) (vars accs : List Tensor)
    (h : ZeroReachable (momentum lr m) vars accs) :
    ((momentum lr m).step (vars.map zerosLike) vars accs).1 = vars := by
  obtain ⟨ihs, ihz⟩ := momentum_zeroReachable_acc lr m vars accs h
  obtain ⟨hsh₂, hz₂⟩ := momentum_zero_acc_step m vars accs ihs ihz
  simp only [momentum]
  exact momentum_noop_outer lr _ vars (hsh₂.trans ihs) hz₂

/-- C4: under the gradient-descent-shaped optimizer contract of spec
section 4.2 — a zero gradient moves no variable, in any accumulator state
reachable in this pipeline by zero-gradient steps from lazy creation,
which holds for plain gradient descent and for momentum/adaptive
strategies whose accumulators start at zero — `server_init` followed by
`server_update_model` with an all-zero delta returns a `ServerState`
whose model is value-identical to `server_init`'s model. -/
theorem server_init_zero_delta_preserves (m₀ : ModelWeights) (opt : Optimizer)
    (δ : List Tensor)
    (hzero : ∀ vars accs, ZeroReachable opt vars accs →
      (opt.step (vars.map zerosLike) vars accs).1 = vars)
    (hs : tshapes δ = tshapes (server_init m₀ opt).model.trainable)
    (hz : ∀ t ∈ δ, ∀ v ∈ t, v = FVal.fin 0) :
    (server_update_model (server_init m₀ opt) δ m₀ opt).map (fun st => st.model)
      = Except.ok (server_init m₀ opt).model := by
  have hδ : δ = (server_init m₀ opt).model.trainable.map zerosLike :=
    all_zero_eq_map_zerosLike δ _ hs hz
  have hC : create_optimizer_and_server_state m₀ opt
      = ⟨⟨(opt.step (m₀.trainable.map zerosLike) m₀.trainable
            (opt.init m₀.trainable)).1, m₀.non_trainable⟩,
         (opt.step (m₀.trainable.map zerosLike) m₀.trainable
            (opt.init m₀.trainable)).2⟩ := by
    simp only [create_optimizer_and_server_state, negDelta_zeros]
  have hreach : ZeroReachable opt
      (create_optimizer_and_server_state m₀ opt).model.trainable
      (create_optimizer_and_server_state m₀ opt).optimizer_state := by
    rw [hC]
    exact ZeroReachable.step m₀.trainable (opt.init m₀.trainable)
      (ZeroReachable.init m₀.trainable)
  have hδ₂ := hδ
  simp only [server_init] at hδ₂ hs ⊢
  simp only [server_update_model, if_true]
  simp only [apply_delta]
  rw [if_pos hs]
  have key : (opt.step (negDelta δ)
      (create_optimizer_and_server_state m₀ opt).model.trainable
      (create_optimizer_and_server_state m₀ opt).optimizer_state).1
      = (create_optimizer_and_server_state m₀ opt).model.trainable := by
    rw [hδ₂, negDelta_zeros]
    exact hzero _ _ hreach
  simp only [Except.map]
  rw [key]

/-- Witness for C4 with the stateful momentum strategy at a concrete
model: its accumulators start at zero, so the zero-gradient contract
holds along the pipeline and the model is preserved. -/
theorem server_init_zero_delta_preserves_witness :
    (tshapes [[FVal.fin 0]]
        = tshapes (server_init ⟨[[FVal.fin 1]], []⟩
            (momentum 1 2)).model.trainable) ∧
    (∀ t ∈ ([[FVal.fin 0]] : List Tensor), ∀ v ∈ t, v = FVal.fin 0) ∧
    ((server_update_model (server_init ⟨[[FVal.fin 1]], []⟩ (momentum 1 2))
          [[FVal.fin 0]] ⟨[[FVal.fin 1]], []⟩ (momentum 1 2)).map
        (fun st => st.model)
      = Except.ok (server_init ⟨[[FVal.fin 1]], []⟩ (momentum 1 2)).model) :=
  ⟨by decide, by decide,
   server_init_zero_delta_preserves ⟨[[FVal.fin 1]], []⟩ (momentum 1 2)
     [[FVal.fin 0]]
     (fun vars accs h => momentum_zero_noop 1 2 vars accs h) (by decide)
     (by decide)⟩

theorem FVal.gd_scalar_comp (lr : ℚ) (v d₁ d₂ : FVal) :
    (v.sub ((FVal.fin lr).mul ((FVal.fin (-1)).mul d₁))).sub
        ((FVal.fin lr).mul ((FVal.fin (-1)).mul d₂))
      = v.sub ((FVal.fin lr).mul ((FVal.fin (-1)).mul (d₁.add d₂))) := by
  cases v <;> cases d₁ <;> cases d₂ <;>
    simp [FVal.sub, FVal.mul, FVal.add] <;> ring

theorem gd_tensor_comp (lr : ℚ) (t d₁ d₂ : Tensor) :
    List.zipWith (fun gx vx => vx.sub ((FVal.fin lr).mul gx))
        (d₂.map (fun x => (FVal.fin (-1)).mul x))
        (List.zipWith (fun gx vx => vx.sub ((FVal.fin lr).mul gx))
          (d₁.map (fun x => (FVal.fin (-1)).mul x)) t)
      = List.zipWith (fun gx vx => vx.sub ((FVal.fin lr).mul gx))
          ((List.zipWith FVal.add d₁ d₂).map (fun x => (FVal.fin (-1)).mul x))
          t := by
  induction t generalizing d₁ d₂ with
  | nil => cases d₁ <;> cases d₂ <;> rfl
  | cons v vs ih =>
      cases d₁ with
      | nil => simp
      | cons a as =>
          cases d₂ with
          | nil => rfl
          | cons b bs =>
              simp only [List.map_cons, List.zipWith_cons_cons,
                List.cons.injEq]
              exact ⟨FVal.gd_scalar_comp lr v a b, ih as bs⟩

theorem gd_outer_comp (lr : ℚ) (tr δ₁ δ₂ : List Tensor) :
    List.zipWith
        (fun g v => List.zipWith (fun gx vx => vx.sub ((FVal.fin lr).mul gx)) g v)
        (negDelta δ₂)
        (List.zipWith
          (fun g v => List.zipWith (fun gx vx => vx.sub ((FVal.fin lr).mul gx)) g v)
          (negDelta δ₁) tr)
      = List.zipWith
          (fun g v => List.zipWith (fun gx vx => vx.sub ((FVal.fin lr).mul gx)) g v)
          (negDelta (List.zipWith (fun a b => List.zipWith FVal.add a b) δ₁ δ₂))
          tr := by
  induction tr generalizing δ₁ δ₂ with
  | nil => cases δ₁ <;> cases δ₂ <;> rfl
  | cons t ts ih =>
      cases δ₁ with
      | nil => simp [negDelta]
      | cons a as =>
          cases δ₂ with
          | nil => rfl
          | cons b bs =>
              simp only [negDelta, List.map_cons, List.zipWith_cons_cons,
                List.cons.injEq]
              exact ⟨gd_tensor_comp lr t a b, by simpa [negDelta] using ih as bs⟩

/-- C5: two successive `server_update_model` calls with deltas d1 then d2
under the stateless plain gradient-descent strategy agree with one call
with delta d1 + d2; under the stateful momentum strategy the two disagree
on a concrete run, because the optimizer state is threaded through
`ServerState` across calls. -/
theorem server_update_gd_composes :
    (∀ (lr : ℚ) (s : ServerState) (d₁ d₂ : List Tensor) (m₀ : ModelWeights),
      sshapes (create_optimizer_and_server_state m₀ (gradientDescent lr))
          = sshapes s →
      tshapes d₁ = tshapes s.model.trainable →
      tshapes d₂ = tshapes s.model.trainable →
      (server_update_model s d₁ m₀ (gradientDescent lr)).bind
          (fun s₁ => server_update_model s₁ d₂ m₀ (gradientDescent lr))
        = server_update_model s
            (List.zipWith (fun a b => List.zipWith FVal.add a b) d₁ d₂) m₀
            (gradientDescent lr)) ∧
    ((server_update_model (server_init srvModel srvMomentum) srvDelta₁ srvModel
          srvMomentum).bind
        (fun s₁ => server_update_model s₁ srvDelta₂ srvModel srvMomentum)
      = Except.ok ⟨⟨[[FVal.fin 4]], []⟩, [[FVal.fin (-2)]]⟩) ∧
    (server_update_model (server_init srvModel srvMomentum)
        (List.zipWith (fun a b => List.zipWith FVal.add a b) srvDelta₁ srvDelta₂)
        srvModel srvMomentum
      = Except.ok ⟨⟨[[FVal.fin 2]], []⟩, [[FVal.fin (-1)]]⟩) ∧
    (([[FVal.fin 4]] : List Tensor) ≠ [[FVal.fin 2]]) := by
  refine ⟨?_, ?_, ?_, by decide⟩
  case refine_2 =>
    simp [server_update_model, server_init, create_optimizer_and_server_state,
      apply_delta, srvMomentum, momentum, srvModel, srvDelta₁, srvDelta₂,
      sshapes, tshapes, negDelta, zerosLike, FVal.mul, FVal.sub, FVal.add,
      Except.map, Except.bind]
    norm_num
  case refine_3 =>
    simp [server_update_model, server_init, create_optimizer_and_server_state,
      apply_delta, srvMomentum, momentum, srvModel, srvDelta₁, srvDelta₂,
      sshapes, tshapes, negDelta, zerosLike, FVal.mul, FVal.sub, FVal.add,
      Except.map, Except.bind]
    norm_num
  intro lr s d₁ d₂ m₀ h₀ h₁ h₂
  have hT : tshapes (List.zipWith
      (fun g v => List.zipWith (fun gx vx => vx.sub ((FVal.fin lr).mul gx)) g v)
      (negDelta d₁) s.model.trainable) = tshapes s.model.trainable :=
    tshapes_zipWith _ _ _ ((tshapes_negDelta d₁).trans h₁)
  have h₃ : tshapes s.optimizer_state = ([] : List Nat) := by
    have := congrArg (fun p => p.2.2) h₀
    simpa [create_optimizer_and_server_state, sshapes, gradientDescent,
      tshapes] using this.symm
  have e₁ : server_update_model s d₁ m₀ (gradientDescent lr)
      = Except.ok ⟨⟨List.zipWith
          (fun g v => List.zipWith (fun gx vx => vx.sub ((FVal.fin lr).mul gx)) g v)
          (negDelta d₁) s.model.trainable, s.model.non_trainable⟩, []⟩ := by
    simp only [server_update_model]
    rw [if_pos h₀]
    simp only [apply_delta]
    rw [if_pos h₁]
    simp only [Except.map, gradientDescent]
  have hs₁ : sshapes (create_optimizer_and_server_state m₀ (gradientDescent lr))
      = sshapes (⟨⟨List.zipWith
          (fun g v => List.zipWith (fun gx vx => vx.sub ((FVal.fin lr).mul gx)) g v)
          (negDelta d₁) s.model.trainable, s.model.non_trainable⟩, []⟩ :
            ServerState) := by
    rw [h₀]
    simp only [sshapes]
    rw [hT, h₃]
    rfl
  have e₂ : server_update_model (⟨⟨List.zipWith
        (fun g v => List.zipWith (fun gx vx => vx.sub ((FVal.fin lr).mul gx)) g v)
        (negDelta d₁) s.model.trainable, s.model.non_trainable⟩, []⟩ : ServerState)
        d₂ m₀ (gradientDescent lr)
      = Except.ok ⟨⟨List.zipWith
          (fun g v => List.zipWith (fun gx vx => vx.sub ((FVal.fin lr).mul gx)) g v)
          (negDelta d₂)
          (List.zipWith
            (fun g v => List.zipWith (fun gx vx => vx.sub ((FVal.fin lr).mul gx)) g v)
            (negDelta d₁) s.model.trainable), s.model.non_trainable⟩, []⟩ := by
    simp only [server_update_model]
    rw [if_pos hs₁]
    simp only [apply_delta]
    rw [if_pos (h₂.trans hT.symm)]
    simp only [Except.map, gradientDescent]
  have e₃ : server_update_model s
        (List.zipWith (fun a b => List.zipWith FVal.add a b) d₁ d₂) m₀
        (gradientDescent lr)
      = Except.ok ⟨⟨List.zipWith
          (fun g v => List.zipWith (fun gx vx => vx.sub ((FVal.fin lr).mul gx)) g v)
          (negDelta (List.zipWith (fun a b => List.zipWith FVal.add a b) d₁ d₂))
          s.model.trainable, s.model.non_trainable⟩, []⟩ := by
    simp only [server_update_model]
    rw [if_pos h₀]
    simp only [apply_delta]
    rw [if_pos ((tshapes_zipWith FVal.add d₁ d₂ (h₁.trans h₂.symm)).trans h₂)]
    simp only [Except.map, gradientDescent]
  rw [e₁, e₃]
  show (Except.ok _).bind _ = _
  simp only [Except.bind, e₂, gd_outer_comp]

/-- Witness for C5's general part at a concrete state and deltas. -/
theorem server_update_gd_composes_witness :
    (server_update_model ⟨⟨[[FVal.fin 1]], []⟩, []⟩ [[FVal.fin 2]]
        ⟨[[FVal.fin 0]], []⟩ (gradientDescent 1)).bind
      (fun s₁ => server_update_model s₁ [[FVal.fin 3]] ⟨[[FVal.fin 0]], []⟩
        (gradientDescent 1))
    = server_update_model ⟨⟨[[FVal.fin 1]], []⟩, []⟩
        (List.zipWith (fun a b => List.zipWith FVal.add a b) [[FVal.fin 2]]
          [[FVal.fin 3]])
        ⟨[[FVal.fin 0]], []⟩ (gradientDescent 1) :=
  server_update_gd_composes.1 1 ⟨⟨[[FVal.fin 1]], []⟩, []⟩ [[FVal.fin 2]]
    [[FVal.fin 3]] ⟨[[FVal.fin 0]], []⟩ (by decide) (by decide) (by decide)

/-- C10: under the shape discipline of TensorFlow variables, the result
of `server_update_model` is independent of the factories' fresh
initialization values (only their shapes matter), and coincides with the
simpler construct-rehydrate-apply-once pipeline with no zero-delta dry
run. -/
theorem server_update_independent_of_init (opt : Optimizer)
    (hwf : WellShaped opt) (s : ServerState) (δ : List Tensor)
    (m₀ m₁ : ModelWeights)
    (htr : tshapes m₀.trainable = tshapes m₁.trainable)
    (hnt : tshapes m₀.non_trainable = tshapes m₁.non_trainable) :
    server_update_model s δ m₀ opt = server_update_model s δ m₁ opt ∧
    server_update_model s δ m₀ opt = serverUpdateSimple s δ m₀ opt := by
  have h₀ := create_sshapes m₀ opt hwf
  have h₁ := create_sshapes m₁ opt hwf
  have hinit := hwf.1 m₀.trainable m₁.trainable htr
  constructor
  · simp only [server_update_model, h₀, h₁, hinit, htr, hnt]
  · simp only [server_update_model, serverUpdateSimple, h₀]

/-- Witness for C10 with the gradient-descent strategy at two concrete
factory initializations. -/
theorem server_update_independent_of_init_witness :
    server_update_model ⟨⟨[[FVal.fin 1]], []⟩, []⟩ [[FVal.fin 2]]
        ⟨[[FVal.fin 7]], []⟩ (gradientDescent 1)
      = server_update_model ⟨⟨[[FVal.fin 1]], []⟩, []⟩ [[FVal.fin 2]]
        ⟨[[FVal.fin 3]], []⟩ (gradientDescent 1) ∧
    server_update_model ⟨⟨[[FVal.fin 1]], []⟩, []⟩ [[FVal.fin 2]]
        ⟨[[FVal.fin 7]], []⟩ (gradientDescent 1)
      = serverUpdateSimple ⟨⟨[[FVal.fin 1]], []⟩, []⟩ [[FVal.fin 2]]
        ⟨[[FVal.fin 7]], []⟩ (gradientDescent 1) :=
  server_update_independent_of_init (gradientDescent 1) (gd_wellShaped 1)
    ⟨⟨[[FVal.fin 1]], []⟩, []⟩ [[FVal.fin 2]] ⟨[[FVal.fin 7]], []⟩
    ⟨[[FVal.fin 3]], []⟩ (by decide) (by decide)

end FedAvg
